import Mathlib

/- Shallow embedding of the tenant-null codemod scripts of this repository:
   apps/api/fix-all-tenant-nulls.py, apps/api/fix-reconciliation-nulls.py,
   apps/api/fix-remaining-nulls.py, apps/api/scripts/add-missing-tenant-id.py
   and apps/api/scripts/fix-remaining-tenant-id.py.  File texts are embedded
   as List Char.  The Python regular expressions the scripts use are embedded
   through a small backtracking engine with Python priority: leftmost match,
   greedy quantifiers trying longest first, left-biased alternation. -/

/-- Python whitespace class, the set matched by the regex class \s and
    stripped by str.strip and str.lstrip. -/
def isPySpace (c : Char) : Bool :=
  c = ' ' || c = '\t' || c = '\n' || c = '\r' || c = '\x0b' || c = '\x0c'

/-- Python regex word class \w restricted to ASCII, which covers the sources. -/
def isWordChar (c : Char) : Bool := c.isAlphanum || c = '_'

/-- Python str.lower on the character list. -/
def lowerL (l : List Char) : List Char := l.map Char.toLower

/-- Python substring search str.find: index of the first occurrence of pat
    in s, none when absent.  The scripts only search nonempty patterns, and
    for an empty pat this returns none. -/
def findSub (pat : List Char) : List Char → Option Nat
  | [] => none
  | c :: t =>
    if pat ≠ [] ∧ pat.isPrefixOf (c :: t) then some 0
    else (findSub pat t).map (fun i => i + 1)

/-- Python substring membership, the operator pat in s. -/
def containsSub (s pat : List Char) : Bool := (findSub pat s).isSome

/-- Fuel-driven body of replaceAll; the fuel is the length of the scanned
    text, enough because every step consumes at least one character. -/
def replaceAllF (pat rep : List Char) : Nat → List Char → List Char
  | 0, s => s
  | fuel+1, s =>
    match findSub pat s with
    | none => s
    | some i => s.take i ++ rep ++ replaceAllF pat rep fuel (s.drop (i + pat.length))

/-- Python str.replace: replace every non-overlapping occurrence of pat by
    rep, scanning left to right. -/
def replaceAll (s pat rep : List Char) : List Char := replaceAllF pat rep s.length s

/-- Text insertion at a byte offset: content[:p] + t + content[p:], the form
    every guard insertion in the scripts takes. -/
def insertAt (s : List Char) (p : Nat) (t : List Char) : List Char :=
  s.take p ++ t ++ s.drop p

/-- Python str.split on a newline character. -/
def splitNl : List Char → List (List Char)
  | [] => [[]]
  | c :: t =>
    match splitNl t with
    | [] => [[c]]
    | l :: ls => if c = '\n' then [] :: l :: ls else (c :: l) :: ls

/-- Python newline join, the inverse used by the scripts after splitNl. -/
def joinNl : List (List Char) → List Char
  | [] => []
  | [l] => l
  | l :: ls => l ++ '\n' :: joinNl ls

/-- Python str.strip with no argument: trim whitespace at both ends. -/
def stripL (l : List Char) : List Char :=
  ((l.dropWhile isPySpace).reverse.dropWhile isPySpace).reverse

/-- Embedded subset of Python regular expressions as used by the scripts:
    literals, one-character classes, greedy star and plus over a class,
    greedy option, alternation and concatenation. -/
inductive RE where
  | lit (l : List Char)
  | cls (p : Char → Bool)
  | star (p : Char → Bool)
  | plus (p : Char → Bool)
  | opt (r : RE)
  | alt (a b : RE)
  | cat (a b : RE)

/-- Backtracking matcher anchored at the head of s: every (consumed, rest)
    split, listed in Python priority order — greedy quantifiers longest
    first, alternation left branch first. -/
def runREc : RE → List Char → List (List Char × List Char)
  | RE.lit l, s => if l.isPrefixOf s then [(l, s.drop l.length)] else []
  | RE.cls _, [] => []
  | RE.cls p, c :: t => if p c then [([c], t)] else []
  | RE.star p, s =>
    let k := (s.takeWhile p).length
    (List.range (k+1)).map (fun i => (s.take (k - i), s.drop (k - i)))
  | RE.plus p, s =>
    let k := (s.takeWhile p).length
    (List.range k).map (fun i => (s.take (k - i), s.drop (k - i)))
  | RE.opt r, s => runREc r s ++ [([], s)]
  | RE.alt a b, s => runREc a s ++ runREc b s
  | RE.cat a b, s =>
    (runREc a s).flatMap (fun cr => (runREc b cr.2).map (fun dr => (cr.1 ++ dr.1, dr.2)))

/-- Python re.match viewed as a boolean: does the pattern match at the start. -/
def reMatchesHere (r : RE) (s : List Char) : Bool := !(runREc r s).isEmpty

/-- Python re.finditer match-end offsets: scan left to right, take the first
    (highest-priority) match at each position, resume after each match.
    The fuel is the text length; every step consumes at least a character
    because no script pattern matches the empty string. -/
def scanMatchEnds (r : RE) : Nat → Nat → List Char → List Nat
  | 0, _, _ => []
  | _+1, _, [] => []
  | fuel+1, pos, c :: t =>
    match runREc r (c :: t) with
    | cr :: _ => (pos + cr.1.length) :: scanMatchEnds r fuel (pos + cr.1.length) cr.2
    | [] => scanMatchEnds r fuel (pos + 1) t

/-- Lookahead-window test shared by the guard-insertion loops: does the
    window of w characters after offset p hold one of the marker strings. -/
def windowHasB (s : List Char) (w : Nat) (marks : List (List Char)) (p : Nat) : Bool :=
  marks.any (fun m => containsSub ((s.drop p).take w) m)

/-- Shared guard-insertion loop of the fixer scripts: walk the match-end
    offsets in the given order (the scripts iterate the finditer matches
    reversed, tail to head), skip an offset when the lookahead window on the
    current text already holds a marker, else insert the guard text at the
    offset.  Also returns the offsets at which an insertion happened. -/
def guardLoopAux (g : List Char) (w : Nat) (marks : List (List Char)) :
    List Nat → List Char → List Char × List Nat
  | [], s => (s, [])
  | p :: ps, s =>
    if windowHasB s w marks p then guardLoopAux g w marks ps s
    else
      let r := guardLoopAux g w marks ps (insertAt s p g)
      (r.1, p :: r.2)

/-- Text component of the guard-insertion loop. -/
def guardLoop (g : List Char) (w : Nat) (marks : List (List Char))
    (ps : List Nat) (s : List Char) : List Char :=
  (guardLoopAux g w marks ps s).1

/- Literal strings used by fix-all-tenant-nulls.py and friends.  Brace and
   quote characters are written with hex escapes. -/

/-- Marker string of the conditional-failure line of an inserted guard. -/
def bangUserLit : List Char := "!user.tenantId".toList

/-- Marker string of the binding-declaration line of an inserted guard. -/
def bindDeclLit : List Char := "const tenantId = user.tenantId".toList

/-- Unsafe expression rewritten by the Reference Rewriter. -/
def userTenantLit : List Char := "user.tenantId".toList

/-- Safe binding the unsafe expression is rewritten to. -/
def tenantIdLit : List Char := "tenantId".toList

/-- Recognizer token of logging lines in fix_controller_file. -/
def loggerLit : List Char := "logger".toList

/-- Character class complements used in the embedded patterns. -/
def notLBrace (c : Char) : Bool := !(c = '\x7b')

/-- Complement of the closing parenthesis, the class written [^)]. -/
def notRPar (c : Char) : Bool := !(c = ')')

/-- Complement of the greater-than sign, the class written [^>]. -/
def notGt (c : Char) : Bool := !(c = '>')

/-- Embedded method_pattern of fix_controller_file (and Strategy 1 of
    fix_any_file):
    async word+ ( [^braces]* at-CurrentUser() user: IUser [^braces]* )
    spaces (: spaces Promise< [^>]+ >)? spaces openbrace. -/
def methodRE : RE :=
  RE.cat (RE.lit "async ".toList)
  (RE.cat (RE.plus isWordChar)
  (RE.cat (RE.lit "(".toList)
  (RE.cat (RE.star notLBrace)
  (RE.cat (RE.lit "@CurrentUser() user: IUser".toList)
  (RE.cat (RE.star notLBrace)
  (RE.cat (RE.lit ")".toList)
  (RE.cat (RE.star isPySpace)
  (RE.cat (RE.opt (RE.cat (RE.lit ":".toList)
                  (RE.cat (RE.star isPySpace)
                  (RE.cat (RE.lit "Promise<".toList)
                  (RE.cat (RE.plus notGt) (RE.lit ">".toList))))))
  (RE.cat (RE.star isPySpace) (RE.lit "\x7b".toList))))))))))

/-- Guard text inserted by fix_controller_file after a method opening brace. -/
def ctrNullCheck : List Char :=
  "\n    if (!user.tenantId) \x7b\n      throw new Error(\x27This operation requires a tenant. SUPER_ADMIN users cannot access tenant-specific data.\x27);\n    \x7d\n    const tenantId = user.tenantId;\n".toList

/-- Line step of the reference-rewrite state machine of fix_controller_file:
    a conditional-failure line enters the guard block; inside it every line
    is echoed and the binding-declaration line exits; outside it a line that
    holds the unsafe expression and is not a logging line gets every
    occurrence replaced by the safe binding. -/
def ctrLineStep (inChk : Bool) (line : List Char) : List Char × Bool :=
  if containsSub line bangUserLit then (line, true)
  else if inChk then (line, !containsSub line bindDeclLit)
  else if containsSub line userTenantLit && !containsSub (lowerL line) loggerLit then
    (replaceAll line userTenantLit tenantIdLit, false)
  else (line, false)

/-- Fold of ctrLineStep over the split lines. -/
def ctrRewriteGo : Bool → List (List Char) → List (List Char)
  | _, [] => []
  | st, l :: ls =>
    let r := ctrLineStep st l
    r.1 :: ctrRewriteGo r.2 ls

/-- Embedded fix_controller_file of fix-all-tenant-nulls.py.  Returns the
    resulting text and whether the file is written back: the script returns
    early (no write) when no method matches, and otherwise always writes. -/
def fixControllerFile (content : List Char) : List Char × Bool :=
  let ends := scanMatchEnds methodRE content.length 0 content
  if ends.isEmpty then (content, false)
  else
    let c1 := guardLoop ctrNullCheck 200 [bangUserLit, bindDeclLit] ends.reverse content
    (joinNl (ctrRewriteGo false (splitNl c1)), true)

/-- Fuel-driven re.sub with a constant replacement: at each position take the
    first match and splice the replacement, else keep the character. -/
def reSubAllF (r : RE) (rep : List Char) : Nat → List Char → List Char
  | 0, s => s
  | _+1, [] => []
  | fuel+1, c :: t =>
    match runREc r (c :: t) with
    | cr :: _ => rep ++ reSubAllF r rep fuel cr.2
    | [] => c :: reSubAllF r rep fuel t

/-- Python re.sub with a constant replacement string. -/
def reSubAll (r : RE) (rep s : List Char) : List Char := reSubAllF r rep s.length s

/-- Embedded pattern tenantId!: \s* string; of fix_dto_file. -/
def dtoBangRE : RE :=
  RE.cat (RE.lit "tenantId!:".toList)
    (RE.cat (RE.star isPySpace) (RE.lit "string;".toList))

/-- Embedded pattern tenantId: \s* string; of fix_dto_file. -/
def dtoPlainRE : RE :=
  RE.cat (RE.lit "tenantId:".toList)
    (RE.cat (RE.star isPySpace) (RE.lit "string;".toList))

/-- Replacement text of the DTO rewrite. -/
def dtoRep : List Char := "tenantId?: string | null;".toList

/-- Embedded fix_dto_file of fix-all-tenant-nulls.py: apply the two DTO
    rewrites and write back only when the text changed. -/
def fixDtoFile (content : List Char) : List Char × Bool :=
  let c1 := reSubAll dtoPlainRE dtoRep (reSubAll dtoBangRE dtoRep content)
  if c1 ≠ content then (c1, true) else (content, false)

/- Embedding of fix-reconciliation-nulls.py. -/

/-- Embedded group 1 of the reconciliation method pattern:
    async word+ ( [^rparens]* at-CurrentUser() user: IUser [^rparens]* )
    [^braces]* openbrace. -/
def reconHdrRE : RE :=
  RE.cat (RE.lit "async ".toList)
  (RE.cat (RE.plus isWordChar)
  (RE.cat (RE.lit "(".toList)
  (RE.cat (RE.star notRPar)
  (RE.cat (RE.lit "@CurrentUser() user: IUser".toList)
  (RE.cat (RE.star notRPar)
  (RE.cat (RE.lit ")".toList)
  (RE.cat (RE.star notLBrace) (RE.lit "\x7b".toList))))))))

/-- Embedded gap between the two groups of the reconciliation pattern. -/
def reconGapRE : RE := RE.star isPySpace

/-- Embedded keyword alternation log | debug | warn. -/
def reconKwRE : RE :=
  RE.alt (RE.lit "log".toList) (RE.alt (RE.lit "debug".toList) (RE.lit "warn".toList))

/-- Embedded group 2 of the reconciliation pattern: this.logger.(kw)( . -/
def reconCallRE : RE :=
  RE.cat (RE.lit "this.logger.".toList) (RE.cat reconKwRE (RE.lit "(".toList))

/-- Anchored match of the full reconciliation pattern, returning the texts of
    group 1, the whitespace gap, group 2 and the rest of the input. -/
def matchReconAt (s : List Char) :
    Option (List Char × List Char × List Char × List Char) :=
  (runREc reconHdrRE s).findSome? (fun c1 =>
    (runREc reconGapRE c1.2).findSome? (fun cg =>
      (runREc reconCallRE cg.2).findSome? (fun c2 =>
        some (c1.1, cg.1, c2.1, c2.2))))

/-- Guard text that add_null_check splices between group 1 and group 2. -/
def reconGuardMid : List Char :=
  "\n    if (!user.tenantId) \x7b\n      throw new Error(\x27This operation requires a tenant. SUPER_ADMIN users cannot access tenant-specific data.\x27);\n    \x7d\n    const tenantId = user.tenantId;\n\n    ".toList

/-- Fuel-driven re.sub of the reconciliation pattern with the add_null_check
    function replacement: group 1, the guard text, then group 2. -/
def reconSubF : Nat → List Char → List Char
  | 0, s => s
  | _+1, [] => []
  | fuel+1, c :: t =>
    match matchReconAt (c :: t) with
    | some r => r.1 ++ reconGuardMid ++ r.2.2.1 ++ reconSubF fuel r.2.2.2
    | none => c :: reconSubF fuel t

/-- Guard-insertion stage of fix_reconciliation_controller. -/
def reconInsertGuards (s : List Char) : List Char := reconSubF s.length s

/-- Closing brace as a one-character line, the exit token of the
    reconciliation rewrite state machine. -/
def rbraceL : List Char := "\x7d".toList

/-- Line step of the reference-rewrite state machine of
    fix_reconciliation_controller: a line holding either guard marker enters
    the block; inside it, a line whose strip is a lone closing brace exits;
    outside it, a line holding the unsafe expression gets every occurrence
    replaced.  There is no logging exemption in this script. -/
def reconLineStep (inChk : Bool) (line : List Char) : List Char × Bool :=
  if containsSub line bangUserLit || containsSub line bindDeclLit then (line, true)
  else if inChk && (stripL line = rbraceL) then (line, false)
  else if !inChk && containsSub line userTenantLit then
    (replaceAll line userTenantLit tenantIdLit, inChk)
  else (line, inChk)

/-- Fold of reconLineStep over the split lines. -/
def reconRewriteGo : Bool → List (List Char) → List (List Char)
  | _, [] => []
  | st, l :: ls =>
    let r := reconLineStep st l
    r.1 :: reconRewriteGo r.2 ls

/-- Embedded fix_reconciliation_controller of fix-reconciliation-nulls.py:
    guard insertion, then the line rewrite; the script always writes back. -/
def fixReconciliationController (s : List Char) : List Char :=
  joinNl (reconRewriteGo false (splitNl (reconInsertGuards s)))

/- Embedding of scripts/add-missing-tenant-id.py. -/

/-- Embedded method-declaration pattern of find_method_start:
    \s* (async \s+)? \w+ \s* ( , anchored by re.match. -/
def declRE : RE :=
  RE.cat (RE.star isPySpace)
  (RE.cat (RE.opt (RE.cat (RE.lit "async".toList) (RE.plus isPySpace)))
  (RE.cat (RE.plus isWordChar)
  (RE.cat (RE.star isPySpace) (RE.lit "(".toList))))

/-- Predicate for a line matching the declaration pattern at its start. -/
def declLineMatch (line : List Char) : Bool := reMatchesHere declRE line

/-- Python range(a, b, -1) over naturals: a, a-1, ..., b+1; empty if a <= b. -/
def rangeDown (a b : Nat) : List Nat := (List.range (a - b)).map (fun k => a - k)

/-- Index sequence of the backward scan of find_method_start for a 1-based
    diagnostic line e: range(e - 1, max(0, e - 100), -1). -/
def scanIndices (e : Nat) : List Nat := rangeDown (e - 1) (e - 100)

/-- Opening brace as a literal, the token searched by the forward scan. -/
def lbraceL : List Char := "\x7b".toList

/-- Forward brace scan of find_method_start: from declaration index i, look
    at lines i .. min(len, i+20) - 1 and return one past the first line that
    holds an opening brace. -/
def braceSearch (lines : List (List Char)) (i : Nat) : Option Nat :=
  ((List.range (min lines.length (i + 20) - i)).map (fun k => i + k)).findSome?
    (fun j => if containsSub (lines.getD j []) lbraceL then some (j + 1) else none)

/-- Embedded find_method_start: scan backward over scanIndices for a line
    matching the declaration pattern, then forward for its opening brace;
    none when every candidate fails. -/
def findMethodStart (lines : List (List Char)) (e : Nat) : Option Nat :=
  (scanIndices e).findSome? (fun i =>
    if declLineMatch (lines.getD i []) then braceSearch lines i else none)

/-- Marker checked in the 50-line method block before inserting. -/
def constTenantLit : List Char := "const tenantId".toList

/-- Declaration text inserted by fix_file of add-missing-tenant-id.py
    (before the computed indentation). -/
def addDeclText : List Char := "const tenantId = getTenantId(user);\n\n".toList

/-- List insertion at an index, Python list.insert with clamping. -/
def insertListAt (ls : List (List Char)) (i : Nat) (x : List Char) : List (List Char) :=
  ls.take i ++ [x] ++ ls.drop i

/-- Width of the leading whitespace of a line, len(line) - len(line.lstrip()). -/
def leadWhite (l : List Char) : Nat := l.length - (l.dropWhile isPySpace).length

/-- Embedded per-diagnostic step of fix_file of add-missing-tenant-id.py:
    locate the method start for error line e; skip when not found, when the
    start is falsy or already fixed, or when the next 50 lines already hold
    a tenantId declaration; otherwise insert the indented declaration. -/
def addDecl (lines : List (List Char)) (fixedSet : List Nat) (e : Nat) :
    List (List Char) × List Nat :=
  match findMethodStart lines e with
  | none => (lines, fixedSet)
  | some ms =>
    if ms ≠ 0 && !(fixedSet.contains ms) then
      if !(containsSub ((lines.drop ms).take 50).flatten constTenantLit) then
        (insertListAt lines ms (List.replicate (leadWhite (lines.getD ms [])) ' ' ++ addDeclText),
         ms :: fixedSet)
      else (lines, fixedSet)
    else (lines, fixedSet)

/-- Insertion sort step for the sorted() call of fix_file. -/
def sortNatIns (x : Nat) : List Nat → List Nat
  | [] => [x]
  | y :: t => if x ≤ y then x :: y :: t else y :: sortNatIns x t

/-- Insertion sort, Python sorted on the error-line list. -/
def sortNat : List Nat → List Nat
  | [] => []
  | x :: t => sortNatIns x (sortNat t)

/-- Fold of addDecl over the sorted error lines. -/
def addDeclLoop : List (List Char) × List Nat → List Nat → List (List Char) × List Nat
  | st, [] => st
  | st, e :: es => addDeclLoop (addDecl st.1 st.2 e) es

/-- Embedded fix_file of add-missing-tenant-id.py on the readlines split of a
    file: run addDecl over the sorted error lines and write back only when
    the line list changed. -/
def amFixFile (lines : List (List Char)) (errorLines : List Nat) :
    List (List Char) × Bool :=
  let r := addDeclLoop (lines, []) (sortNat errorLines)
  if r.1 ≠ lines then (r.1, true) else (lines, false)

/- Embedding of the Import Resolver of scripts/fix-remaining-tenant-id.py
   and of Strategy 5 of fix-remaining-nulls.py. -/

/-- Default relative import specifier of the shared helper. -/
def tenantAssertDefault : List Char := "../auth/utils/tenant-assertions".toList

/-- Specifier selected when the path holds /api/admin/. -/
def tenantAssertAdmin : List Char := "../../auth/utils/tenant-assertions".toList

/-- Specifier selected when the path holds /websocket/. -/
def tenantAssertWs : List Char := "../api/auth/utils/tenant-assertions".toList

/-- Directory-name token /api/admin/ tested by the resolver. -/
def apiAdminDirLit : List Char := "/api/admin/".toList

/-- Directory-name token /websocket/ tested by the resolver. -/
def websocketDirLit : List Char := "/websocket/".toList

/-- Embedded relative-path selection of fix_file of
    fix-remaining-tenant-id.py: the admin token is tested first, then the
    websocket token, else the default. -/
def resolveImportPath (filepath : List Char) : List Char :=
  if containsSub filepath apiAdminDirLit then tenantAssertAdmin
  else if containsSub filepath websocketDirLit then tenantAssertWs
  else tenantAssertDefault

/-- Embedded func_pattern of Strategy 5 of fix_any_file:
    (async\s+)? (public\s+|private\s+|protected\s+)? \w+ \s* (
    [^rparens]* word-boundary tenantId: \s* string [^rparens]* )
    (\s* : \s* [^braces]+)? \s* openbrace.
    The word boundary before tenantId is embedded as the alternation of an
    empty run and a run whose final character is not a word character. -/
def funcRE : RE :=
  RE.cat (RE.opt (RE.cat (RE.lit "async".toList) (RE.plus isPySpace)))
  (RE.cat (RE.opt (RE.alt (RE.cat (RE.lit "public".toList) (RE.plus isPySpace))
                  (RE.alt (RE.cat (RE.lit "private".toList) (RE.plus isPySpace))
                          (RE.cat (RE.lit "protected".toList) (RE.plus isPySpace)))))
  (RE.cat (RE.plus isWordChar)
  (RE.cat (RE.star isPySpace)
  (RE.cat (RE.lit "(".toList)
  (RE.cat (RE.alt (RE.cat (RE.star notRPar)
                    (RE.cls (fun c => notRPar c && !isWordChar c)))
                  (RE.lit []))
  (RE.cat (RE.lit "tenantId:".toList)
  (RE.cat (RE.star isPySpace)
  (RE.cat (RE.lit "string".toList)
  (RE.cat (RE.star notRPar)
  (RE.cat (RE.lit ")".toList)
  (RE.cat (RE.opt (RE.cat (RE.star isPySpace)
                  (RE.cat (RE.lit ":".toList)
                  (RE.cat (RE.star isPySpace) (RE.plus notLBrace)))))
  (RE.cat (RE.star isPySpace) (RE.lit "\x7b".toList)))))))))))))

/-- Parameter check inserted by Strategy 5 after a function opening brace. -/
def paramCheckText : List Char :=
  "\n    if (!tenantId) \x7b\n      throw new Error(\x27tenantId is required\x27);\n    \x7d\n".toList

/-- Marker whose presence in the lookahead window suppresses Strategy 5. -/
def bangTenantLit : List Char := "!tenantId".toList

/-- Directory token /services/ of the Strategy 5 path test. -/
def servicesDirLit : List Char := "/services/".toList

/-- Directory token /repositories/ of the Strategy 5 path test. -/
def reposDirLit : List Char := "/repositories/".toList

/-- Directory token /handlers/ of the Strategy 5 path test. -/
def handlersDirLit : List Char := "/handlers/".toList

/-- Match-end offsets of func_pattern over a file text. -/
def funcMatchEnds (content : List Char) : List Nat :=
  scanMatchEnds funcRE content.length 0 content

/-- Strategy 5 insertion loop of fix_any_file: reversed finditer offsets, a
    200-character lookahead window, the !tenantId marker. -/
def fixServicePass (content : List Char) : List Char :=
  guardLoop paramCheckText 200 [bangTenantLit] (funcMatchEnds content).reverse content

/-- Path test of Strategy 5. -/
def pathIsService (p : List Char) : Bool :=
  containsSub p servicesDirLit || containsSub p reposDirLit || containsSub p handlersDirLit

/-- Strategy 5 of fix_any_file as a stage: apply the insertion loop only to
    service, repository and handler paths. -/
def fixServiceStage (path content : List Char) : List Char :=
  if pathIsService path then fixServicePass content else content

/- Definitions written from the words of the specification, for the
   refinement claims that compare code behavior against them. -/

/-- Modelled from the spec (section 3, Patch): simultaneous application of
    guard insertions at ascending absolute offsets, every offset read against
    the original snapshot; base is the amount of snapshot already emitted. -/
def specApplyGo (g : List Char) : Nat → List Nat → List Char → List Char
  | _, [], s => s
  | base, q :: qs, s =>
    s.take (q - base) ++ g ++ specApplyGo g q qs (s.drop (q - base))

/-- Modelled from the spec (section 3, Patch): apply insertions at the given
    ascending snapshot offsets. -/
def specApplyPatches (g : List Char) (qs : List Nat) (s : List Char) : List Char :=
  specApplyGo g 0 qs s

/-- Modelled from the spec (section 4.5, Import Resolver): the directory
    depth of a file path, the count of path separators. -/
def specDirDepth (p : List Char) : Nat := p.countP (fun c => c = '/')

/-- Boolean descending-order test, each element at least every later one. -/
def descListB : List Nat → Bool
  | [] => true
  | a :: t => t.all (fun b => b ≤ a) && descListB t

/-- Boolean ascending-chain test from a lower base. -/
def ascFromB : Nat → List Nat → Bool
  | _, [] => true
  | base, q :: qs => base ≤ q && ascFromB q qs

/-- Boolean descending test with a gap of at least w between consecutive
    elements. -/
def descSepB (w : Nat) : List Nat → Bool
  | [] => true
  | [_] => true
  | a :: b :: t => b + w ≤ a && descSepB w (b :: t)

/- Concrete fixtures used by the counterexamples and witnesses. -/

/-- Controller method whose body already starts with an unguarded binding
    declaration, the input on which the double run of fix_controller_file
    diverges. -/
def c1Input : List Char :=
  "async foo(@CurrentUser() user: IUser) \x7b\n    const tenantId = user.tenantId;\n    return this.svc.find(tenantId);\n  \x7d\n".toList

/-- Controller method that already carries a full guard, so the fix leaves
    the text unchanged while the script still writes the file. -/
def ctr3Input : List Char :=
  "async foo(@CurrentUser() user: IUser) \x7b\n    if (!user.tenantId) \x7b\n      throw new Error(\x27no\x27);\n    \x7d\n    const tenantId = user.tenantId;\n    return this.svc.find(tenantId);\n  \x7d\n".toList

/-- Nested-function fixture in readlines form: an outer method on line index
    1 whose brace closes on index 5, an inner arrow closure declared on index
    2 with body starting at index 3, and the diagnostic on 1-based line 4
    inside the closure. -/
def c2Fix : List (List Char) :=
  ["class C \x7b\n".toList,
   "  async outer(user) \x7b\n".toList,
   "    const cb = (x) => \x7b\n".toList,
   "      x.total = tenantId;\n".toList,
   "    \x7d;\n".toList,
   "  \x7d\n".toList,
   "\x7d\n".toList]

/-- Expected result of the add-missing fix on the nested fixture: the
    declaration lands at line index 2, right after the outer method header,
    before the closure declaration line. -/
def c2Expected : List (List Char) :=
  ["class C \x7b\n".toList,
   "  async outer(user) \x7b\n".toList,
   "    const tenantId = getTenantId(user);\n\n".toList,
   "    const cb = (x) => \x7b\n".toList,
   "      x.total = tenantId;\n".toList,
   "    \x7d;\n".toList,
   "  \x7d\n".toList,
   "\x7d\n".toList]

/-- Fixture for the bounded-search claim: the nearest declaration scanning
    backward from the diagnostic on 1-based line 27 sits at index 4 and has
    no opening brace within the following 20 lines, while an earlier helper
    declaration at index 1 has one. -/
def c8Fix : List (List Char) :=
  ["// pad\n".toList, "async helper() \x7b\n".toList, "  stuff;\n".toList, "\x7d\n".toList,
   "async broken(\n".toList] ++
  List.replicate 20 "  ppp,\n".toList ++
  [") \x7b\n".toList, "  x = tenantId;\n".toList]

/-- Two adjacent service functions with tenantId parameters, their body
    starts 33 characters apart, well inside the 200-character window. -/
def svcTwoFns : List Char :=
  "function a(tenantId: string) \x7b\n\x7d\nfunction b(tenantId: string) \x7b\n\x7d\n".toList

/-- Service path used with the two-function fixture. -/
def svcPath : List Char := "src/services/x.ts".toList

/-- Logging line holding the unsafe expression, outside any guard block. -/
def c5LogLine : List Char := "    this.logger.log(\x27y\x27, user.tenantId);".toList

/-- Binding-declaration line of a guard block. -/
def c6BindLine : List Char := "    const tenantId = user.tenantId;".toList

/-- Ordinary line after the binding declaration that still holds the unsafe
    expression. -/
def c6UseLine : List Char := "    return this.svc.find(user.tenantId);".toList

/-- File path under /api/admin/. -/
def c7PathA : List Char := "src/api/admin/a.ts".toList

/-- File path of the same directory depth outside the special-cased names. -/
def c7PathB : List Char := "src/api/users/a.ts".toList

/-- Reconciliation method whose body starts with a logger call, used to
    witness that the guard-insertion soundness theorem applies. -/
def c9WitnessIn : List Char :=
  "async f(@CurrentUser() user: IUser) \x7b\n    this.logger.log(x);\n  \x7d\n".toList

/-- Two-method fixture for the add-missing fixer: diagnostics on 1-based
    lines 3 and 6; on the original snapshot the first method's body starts
    at line index 2 and the second method's at line index 5. -/
def c4Fix : List (List Char) :=
  ["// pad\n".toList,
   "async alpha() \x7b\n".toList,
   "  x = tenantId;\n".toList,
   "\x7d\n".toList,
   "async beta() \x7b\n".toList,
   "  y = tenantId;\n".toList,
   "\x7d\n".toList]

/- Lemmas about the substring search and the replacement. -/

/-- Nonemptiness and the in-bounds property of a successful substring find. -/
theorem findSub_some_bound {pat : List Char} :
    ∀ {s : List Char} {i : Nat}, findSub pat s = some i →
      pat ≠ [] ∧ i + pat.length ≤ s.length := by
  intro s
  induction s with
  | nil => intro i h; simp [findSub] at h
  | cons c t ih =>
    intro i h
    by_cases hp : pat ≠ [] ∧ pat.isPrefixOf (c :: t)
    · rw [findSub, if_pos hp] at h
      cases h
      refine ⟨hp.1, ?_⟩
      have hpre : pat <+: (c :: t) := List.isPrefixOf_iff_prefix.mp hp.2
      simpa using hpre.length_le
    · rw [findSub, if_neg hp] at h
      rcases Option.map_eq_some'.mp h with ⟨j, hj, hij⟩
      rcases ih hj with ⟨hne, hb⟩
      subst hij
      exact ⟨hne, by simp; omega⟩

/-- Replacement with a shorter or equal replacement never lengthens. -/
theorem replaceAllF_length_le {pat rep : List Char} (hle : rep.length ≤ pat.length) :
    ∀ (fuel : Nat) (s : List Char), (replaceAllF pat rep fuel s).length ≤ s.length := by
  intro fuel
  induction fuel with
  | zero => intro s; simp [replaceAllF]
  | succ n ih =>
    intro s
    rw [replaceAllF]
    cases h : findSub pat s with
    | none => simp
    | some i =>
      rcases findSub_some_bound h with ⟨_, hb⟩
      have := ih (s.drop (i + pat.length))
      simp only [List.length_append, List.length_take, List.length_drop] at this ⊢
      omega

/-- Replacement with a strictly shorter replacement strictly shortens a text
    that holds the pattern. -/
theorem replaceAll_length_lt {s pat rep : List Char}
    (hc : containsSub s pat = true) (hlt : rep.length < pat.length) :
    (replaceAll s pat rep).length < s.length := by
  rcases Option.isSome_iff_exists.mp hc with ⟨i, hi⟩
  rcases findSub_some_bound hi with ⟨hne, hb⟩
  have hlen : 1 ≤ s.length := by
    have : 1 ≤ pat.length := by
      cases pat with
      | nil => exact absurd rfl hne
      | cons a b => simp
    omega
  rcases Nat.exists_eq_add_of_le hlen with ⟨m, hm⟩
  rw [replaceAll, hm, Nat.add_comm, replaceAllF, hi]
  have hrec := replaceAllF_length_le (Nat.le_of_lt hlt) m (s.drop (i + pat.length))
  simp only [List.length_append, List.length_take, List.length_drop] at hrec ⊢
  omega

/-- Replacement of a held pattern by a strictly shorter text changes it. -/
theorem replaceAll_ne_of_contains {s pat rep : List Char}
    (hc : containsSub s pat = true) (hlt : rep.length < pat.length) :
    replaceAll s pat rep ≠ s := by
  intro he
  have := replaceAll_length_lt hc hlt
  rw [he] at this
  exact Nat.lt_irrefl _ this

/- Lemmas about insertion offsets: an insertion at a high offset leaves the
   text before it, and any window fully before it, untouched. -/

/-- Length of an in-bounds insertion. -/
theorem length_insertAt {s g : List Char} {p : Nat} (hp : p ≤ s.length) :
    (insertAt s p g).length = s.length + g.length := by
  simp [insertAt, List.length_append, List.length_take, List.length_drop]
  omega

/-- Prefixes below the insertion offset are preserved. -/
theorem take_insertAt_of_le {s g : List Char} {q p : Nat}
    (hqp : q ≤ p) (hp : p ≤ s.length) :
    (insertAt s p g).take q = s.take q := by
  have h1 : (s.take p).length = p := by simp [List.length_take]; omega
  rw [insertAt, List.append_assoc, List.take_append_eq_append_take, h1,
    Nat.sub_eq_zero_of_le hqp, List.take_take, Nat.min_eq_left hqp]
  simp

/-- Dropping below the insertion offset commutes with the insertion. -/
theorem drop_insertAt_of_le {s g : List Char} {q p : Nat}
    (hqp : q ≤ p) (hp : p ≤ s.length) :
    (insertAt s p g).drop q = insertAt (s.drop q) (p - q) g := by
  have h1 : (s.take p).length = p := by simp [List.length_take]; omega
  rw [insertAt, List.append_assoc, List.drop_append_eq_append_drop, h1,
    Nat.sub_eq_zero_of_le hqp, List.drop_take]
  rw [insertAt, List.drop_zero, List.drop_drop, List.append_assoc]
  congr 3
  omega

/-- Windows that end at or before the insertion offset are preserved. -/
theorem window_insertAt_of_le {s g : List Char} {q w p : Nat}
    (hqw : q + w ≤ p) (hp : p ≤ s.length) :
    ((insertAt s p g).drop q).take w = (s.drop q).take w := by
  have hqp : q ≤ p := by omega
  rw [drop_insertAt_of_le hqp hp, insertAt, List.append_assoc,
    List.take_append_eq_append_take]
  have h1 : ((s.drop q).take (p - q)).length = p - q := by
    simp [List.length_take, List.length_drop]; omega
  rw [h1, Nat.sub_eq_zero_of_le (by omega : w ≤ p - q), List.take_take,
    Nat.min_eq_left (by omega : w ≤ p - q)]
  simp

/- Lemmas about the spec-side simultaneous patch application. -/

theorem specApplyGo_snoc :
    ∀ (g : List Char) (A : List Nat) (base p : Nat) (s : List Char),
      ascFromB base A = true → (∀ a ∈ A, a ≤ p) → p - base ≤ s.length →
      specApplyGo g base (A ++ [p]) s = specApplyGo g base A (insertAt s (p - base) g) := by
  intro g A
  induction A with
  | nil =>
    intro base p s _ _ hp
    simp [specApplyGo, insertAt]
  | cons q A ih =>
    intro base p s hasc hle hp
    have hasc2 : (decide (base ≤ q) && ascFromB q A) = true := by simpa [ascFromB] using hasc
    have hbq : base ≤ q := by
      have := (Bool.and_eq_true _ _).mp hasc2
      simpa using this.1
    have hA : ascFromB q A = true := ((Bool.and_eq_true _ _).mp hasc2).2
    have hqp : q ≤ p := hle q (List.mem_cons_self q A)
    have hq1 : q - base ≤ p - base := Nat.sub_le_sub_right hqp base
    simp only [List.cons_append, specApplyGo, List.append_eq]
    rw [take_insertAt_of_le hq1 hp, drop_insertAt_of_le hq1 hp]
    have hsub : p - base - (q - base) = p - q := by omega
    rw [hsub,
      ih q p (s.drop (q - base)) hA (fun a ha => hle a (List.mem_cons_of_mem q ha))
        (by simp [List.length_drop]; omega)]

/- Helpers about the boolean ordering predicates. -/

/-- Head property of the all-pairs descending test. -/
theorem descListB_cons_iff {a : Nat} {t : List Nat} :
    descListB (a :: t) = true ↔ (∀ b ∈ t, b ≤ a) ∧ descListB t = true := by
  simp [descListB, List.all_eq_true]

/-- Descending order survives filtering. -/
theorem descListB_filter (f : Nat → Bool) :
    ∀ {l : List Nat}, descListB l = true → descListB (l.filter f) = true := by
  intro l
  induction l with
  | nil => intro h; simpa using h
  | cons a t ih =>
    intro h
    rcases descListB_cons_iff.mp h with ⟨ha, ht⟩
    by_cases hf : f a
    · rw [List.filter_cons_of_pos hf]
      exact descListB_cons_iff.mpr
        ⟨fun b hb => ha b (List.mem_of_mem_filter hb), ih ht⟩
    · rw [List.filter_cons_of_neg hf]
      exact ih ht

/-- Transitive head bound of the gapped descending test. -/
theorem descSepB_head {w : Nat} :
    ∀ {l : List Nat} {a : Nat}, descSepB w (a :: l) = true → ∀ b ∈ l, b + w ≤ a := by
  intro l
  induction l with
  | nil => intro a _ b hb; simp at hb
  | cons c t ih =>
    intro a h b hb
    have h2 : (decide (c + w ≤ a) && descSepB w (c :: t)) = true := by
      simpa [descSepB] using h
    rcases (Bool.and_eq_true _ _).mp h2 with ⟨hca, hct⟩
    have hca : c + w ≤ a := by simpa using hca
    rcases List.mem_cons.mp hb with hbc | hbt
    · omega
    · have := ih hct b hbt
      omega

/-- Tail of the gapped descending test. -/
theorem descSepB_tail {w a : Nat} :
    ∀ {l : List Nat}, descSepB w (a :: l) = true → descSepB w l = true := by
  intro l h
  cases l with
  | nil => simp [descSepB]
  | cons c t =>
    have h2 : (decide (c + w ≤ a) && descSepB w (c :: t)) = true := by
      simpa [descSepB] using h
    exact ((Bool.and_eq_true _ _).mp h2).2

/-- Gapped descending implies all-pairs descending. -/
theorem descListB_of_sep {w : Nat} :
    ∀ {l : List Nat}, descSepB w l = true → descListB l = true := by
  intro l
  induction l with
  | nil => intro _; rfl
  | cons a t ih =>
    intro h
    exact descListB_cons_iff.mpr
      ⟨fun b hb => by have := descSepB_head h b hb; omega, ih (descSepB_tail h)⟩

/-- Appending a dominating element keeps an ascending chain ascending. -/
theorem ascFromB_snoc {x : Nat} :
    ∀ {A : List Nat} {b : Nat}, ascFromB b A = true → (∀ a ∈ A, a ≤ x) → b ≤ x →
      ascFromB b (A ++ [x]) = true := by
  intro A
  induction A with
  | nil => intro b _ _ hbx; simpa [ascFromB] using hbx
  | cons q A ih =>
    intro b h ha hbx
    have h2 : (decide (b ≤ q) && ascFromB q A) = true := by simpa [ascFromB] using h
    rcases (Bool.and_eq_true _ _).mp h2 with ⟨hbq, hA⟩
    have hrec := ih hA (fun a hx => ha a (List.mem_cons_of_mem q hx))
      (ha q (List.mem_cons_self q A))
    simp only [List.cons_append, ascFromB, Bool.and_eq_true]
    exact ⟨hbq, hrec⟩

/-- Reversal of an all-pairs descending list is an ascending chain from 0. -/
theorem descListB_rev_asc :
    ∀ {l : List Nat}, descListB l = true → ascFromB 0 l.reverse = true := by
  intro l
  induction l with
  | nil => intro _; rfl
  | cons a t ih =>
    intro h
    rcases descListB_cons_iff.mp h with ⟨ha, ht⟩
    rw [List.reverse_cons]
    exact ascFromB_snoc (ih ht) (fun b hb => ha b (List.mem_reverse.mp hb)) (Nat.zero_le a)

/-- Appending a dominated element keeps all-pairs descending. -/
theorem descListB_snoc {x : Nat} :
    ∀ {A : List Nat}, descListB A = true → (∀ a ∈ A, x ≤ a) →
      descListB (A ++ [x]) = true := by
  intro A
  induction A with
  | nil => intro _ _; simp [descListB]
  | cons a A ih =>
    intro h hx
    rcases descListB_cons_iff.mp h with ⟨ha, hA⟩
    rw [List.cons_append]
    refine descListB_cons_iff.mpr ⟨?_, ih hA (fun b hb => hx b (List.mem_cons_of_mem a hb))⟩
    intro b hb
    rcases List.mem_append.mp hb with hbA | hbx
    · exact ha b hbA
    · simp at hbx
      subst hbx
      exact hx a (List.mem_cons_self a A)

/- Soundness of the regex engine: every reported split reassembles the
   input, needed to bound the finditer scan. -/

/-- Every (consumed, rest) split returned by the matcher reassembles s. -/
theorem runREc_sound :
    ∀ (r : RE) (s : List Char) (cr : List Char × List Char),
      cr ∈ runREc r s → cr.1 ++ cr.2 = s := by
  intro r
  induction r with
  | lit l =>
    intro s cr h
    rw [runREc] at h
    by_cases hp : l.isPrefixOf s
    · rw [if_pos hp] at h
      simp at h
      subst h
      rcases List.isPrefixOf_iff_prefix.mp hp with ⟨t, ht⟩
      subst ht
      simp
    · rw [if_neg hp] at h; simp at h
  | cls p =>
    intro s cr h
    cases s with
    | nil => simp [runREc] at h
    | cons c t =>
      rw [runREc] at h
      by_cases hp : p c
      · rw [if_pos hp] at h; simp at h; subst h; simp
      · rw [if_neg hp] at h; simp at h
  | star p =>
    intro s cr h
    simp only [runREc, List.mem_map, List.mem_range] at h
    rcases h with ⟨i, _, hi⟩
    subst hi
    simp
  | plus p =>
    intro s cr h
    simp only [runREc, List.mem_map, List.mem_range] at h
    rcases h with ⟨i, _, hi⟩
    subst hi
    simp
  | opt r ihr =>
    intro s cr h
    rw [runREc] at h
    rcases List.mem_append.mp h with h | h
    · exact ihr s cr h
    · simp at h; subst h; simp
  | alt a b iha ihb =>
    intro s cr h
    rw [runREc] at h
    rcases List.mem_append.mp h with h | h
    · exact iha s cr h
    · exact ihb s cr h
  | cat a b iha ihb =>
    intro s cr h
    rw [runREc] at h
    rcases List.mem_flatMap.mp h with ⟨c1, hc1, hmem⟩
    rcases List.mem_map.mp hmem with ⟨dr, hdr, heq⟩
    subst heq
    have h1 := iha s c1 hc1
    have h2 := ihb c1.2 dr hdr
    simp only []
    rw [List.append_assoc, h2, h1]

/-- Every match end reported by the scan is at least the scan position. -/
theorem scanEnds_lb {r : RE} :
    ∀ (fuel : Nat) (pos : Nat) (s : List Char),
      ∀ x ∈ scanMatchEnds r fuel pos s, pos ≤ x := by
  intro fuel
  induction fuel with
  | zero => intro pos s x hx; simp [scanMatchEnds] at hx
  | succ n ih =>
    intro pos s x hx
    cases s with
    | nil => simp [scanMatchEnds] at hx
    | cons c t =>
      rw [scanMatchEnds] at hx
      cases hm : runREc r (c :: t) with
      | nil =>
        rw [hm] at hx
        have := ih (pos + 1) t x hx
        omega
      | cons cr rest =>
        rw [hm] at hx
        rcases List.mem_cons.mp hx with h | h
        · omega
        · have := ih (pos + cr.1.length) cr.2 x h
          omega

/-- Every match end reported by the scan stays inside the text. -/
theorem scanEnds_ub {r : RE} :
    ∀ (fuel : Nat) (pos : Nat) (s : List Char),
      ∀ x ∈ scanMatchEnds r fuel pos s, x ≤ pos + s.length := by
  intro fuel
  induction fuel with
  | zero => intro pos s x hx; simp [scanMatchEnds] at hx
  | succ n ih =>
    intro pos s x hx
    cases s with
    | nil => simp [scanMatchEnds] at hx
    | cons c t =>
      rw [scanMatchEnds] at hx
      cases hm : runREc r (c :: t) with
      | nil =>
        rw [hm] at hx
        have := ih (pos + 1) t x hx
        simp only [List.length_cons]
        omega
      | cons cr rest =>
        rw [hm] at hx
        have hsound := runREc_sound r (c :: t) cr (hm ▸ List.mem_cons_self cr rest)
        have hlen : cr.1.length + cr.2.length = (c :: t).length := by
          rw [← hsound]; simp
        rcases List.mem_cons.mp hx with h | h
        · subst h; omega
        · have := ih (pos + cr.1.length) cr.2 x h
          omega

/-- Reversing the scanned match ends yields a descending offset list: the
    tail-to-head iteration order of the fixer scripts. -/
theorem scanEnds_rev_desc {r : RE} :
    ∀ (fuel : Nat) (pos : Nat) (s : List Char),
      descListB ((scanMatchEnds r fuel pos s).reverse) = true := by
  intro fuel
  induction fuel with
  | zero => intro pos s; simp [scanMatchEnds]; rfl
  | succ n ih =>
    intro pos s
    cases s with
    | nil => simp [scanMatchEnds]; rfl
    | cons c t =>
      rw [scanMatchEnds]
      cases hm : runREc r (c :: t) with
      | nil => exact ih (pos + 1) t
      | cons cr rest =>
        rw [List.reverse_cons]
        exact descListB_snoc (ih (pos + cr.1.length) cr.2)
          (fun a ha => by
            have := scanEnds_lb n (pos + cr.1.length) cr.2 a (List.mem_reverse.mp ha)
            omega)

/- Lemmas about the shared guard-insertion loop. -/

/-- Prefixes at or below every pending offset are never shifted. -/
theorem guardLoop_take_stable {g : List Char} {w : Nat} {m : List (List Char)} :
    ∀ (ps : List Nat) (s : List Char) (q : Nat),
      (∀ x ∈ ps, x ≤ s.length) → (∀ x ∈ ps, q ≤ x) →
      ((guardLoopAux g w m ps s).1).take q = s.take q := by
  intro ps
  induction ps with
  | nil => intro s q _ _; rfl
  | cons p ps ih =>
    intro s q hb hq
    have hp : p ≤ s.length := hb p (List.mem_cons_self p ps)
    have hqp : q ≤ p := hq p (List.mem_cons_self p ps)
    rw [guardLoopAux]
    by_cases hw : windowHasB s w m p
    · rw [if_pos hw]
      exact ih s q (fun x hx => hb x (List.mem_cons_of_mem p hx))
        (fun x hx => hq x (List.mem_cons_of_mem p hx))
    · rw [if_neg hw]
      have hrec := ih (insertAt s p g) q
        (fun x hx => by
          have := hb x (List.mem_cons_of_mem p hx)
          rw [length_insertAt hp]; omega)
        (fun x hx => hq x (List.mem_cons_of_mem p hx))
      simpa [hrec] using take_insertAt_of_le hqp hp

/-- On a descending worklist, the loop result equals the spec-side
    simultaneous application at the offsets it actually inserted, those
    offsets are descending, and they come from the worklist. -/
theorem guardLoopAux_snapshot {g : List Char} {w : Nat} {m : List (List Char)} :
    ∀ (ps : List Nat) (s : List Char),
      descListB ps = true → (∀ x ∈ ps, x ≤ s.length) →
      (guardLoopAux g w m ps s).1 =
          specApplyPatches g ((guardLoopAux g w m ps s).2).reverse s
        ∧ descListB (guardLoopAux g w m ps s).2 = true
        ∧ ∀ x ∈ (guardLoopAux g w m ps s).2, x ∈ ps := by
  intro ps
  induction ps with
  | nil =>
    intro s _ _
    exact ⟨rfl, rfl, by intro x hx; simp [guardLoopAux] at hx⟩
  | cons p ps ih =>
    intro s hd hb
    have hp : p ≤ s.length := hb p (List.mem_cons_self p ps)
    rcases descListB_cons_iff.mp hd with ⟨hall, hdt⟩
    rw [guardLoopAux]
    by_cases hw : windowHasB s w m p
    · rw [if_pos hw]
      rcases ih s hdt (fun x hx => hb x (List.mem_cons_of_mem p hx)) with ⟨h1, h2, h3⟩
      exact ⟨h1, h2, fun x hx => List.mem_cons_of_mem p (h3 x hx)⟩
    · rw [if_neg hw]
      rcases ih (insertAt s p g)
        (hdt)
        (fun x hx => by
          have := hb x (List.mem_cons_of_mem p hx)
          rw [length_insertAt hp]; omega) with ⟨h1, h2, h3⟩
      refine ⟨?_, ?_, ?_⟩
      · show (guardLoopAux g w m ps (insertAt s p g)).1 =
          specApplyPatches g ((p :: (guardLoopAux g w m ps (insertAt s p g)).2).reverse) s
        rw [h1, List.reverse_cons]
        rw [specApplyPatches, specApplyPatches,
          specApplyGo_snoc g _ 0 p s
            (descListB_rev_asc h2)
            (fun a ha => hall a (h3 a (List.mem_reverse.mp ha)))
            (by simpa using hp)]
        rw [Nat.sub_zero]
      · show descListB (p :: (guardLoopAux g w m ps (insertAt s p g)).2) = true
        exact descListB_cons_iff.mpr ⟨fun b hbm => hall b (h3 b hbm), h2⟩
      · intro x hx
        rcases List.mem_cons.mp hx with h | h
        · subst h; exact List.mem_cons_self x ps
        · exact List.mem_cons_of_mem p (h3 x h)

/-- With pairwise window separation, the loop equals the spec-side
    simultaneous application at exactly the offsets whose original-snapshot
    window is free of markers. -/
theorem guardLoopAux_sep {g : List Char} {w : Nat} {m : List (List Char)} :
    ∀ (ps : List Nat) (s : List Char),
      descSepB w ps = true → (∀ x ∈ ps, x ≤ s.length) →
      guardLoopAux g w m ps s =
        (specApplyPatches g ((ps.filter (fun p => !windowHasB s w m p)).reverse) s,
         ps.filter (fun p => !windowHasB s w m p)) := by
  intro ps
  induction ps with
  | nil => intro s _ _; rfl
  | cons p ps ih =>
    intro s hsep hb
    have hp : p ≤ s.length := hb p (List.mem_cons_self p ps)
    have hsept := descSepB_tail hsep
    have hhead := descSepB_head hsep
    rw [guardLoopAux]
    by_cases hw : windowHasB s w m p
    · rw [if_pos hw, List.filter_cons_of_neg (by simpa using hw)]
      exact ih s hsept (fun x hx => hb x (List.mem_cons_of_mem p hx))
    · rw [if_neg hw, List.filter_cons_of_pos (by simpa using hw)]
      have hbt : ∀ x ∈ ps, x ≤ (insertAt s p g).length := fun x hx => by
        have := hb x (List.mem_cons_of_mem p hx)
        rw [length_insertAt hp]; omega
      have hrec := ih (insertAt s p g) hsept hbt
      have hwin : ∀ x ∈ ps,
          windowHasB (insertAt s p g) w m x = windowHasB s w m x := by
        intro x hx
        have hxw : x + w ≤ p := hhead x hx
        unfold windowHasB
        rw [window_insertAt_of_le hxw hp]
      have hfeq : ps.filter (fun x => !windowHasB (insertAt s p g) w m x)
          = ps.filter (fun x => !windowHasB s w m x) :=
        List.filter_congr (fun x hx => by rw [hwin x hx])
      rw [hrec, hfeq]
      have hdesc : descListB (ps.filter (fun x => !windowHasB s w m x)) = true :=
        descListB_filter _ (descListB_of_sep hsept)
      have hsnoc := specApplyGo_snoc g
        ((ps.filter (fun x => !windowHasB s w m x)).reverse) 0 p s
        (descListB_rev_asc hdesc)
        (fun a ha => by
          have hmem : a ∈ ps := List.mem_of_mem_filter (List.mem_reverse.mp ha)
          have := hhead a hmem; omega)
        (by simpa using hp)
      rw [specApplyPatches, specApplyPatches, List.reverse_cons, hsnoc, Nat.sub_zero]

/- Shape lemmas for the reconciliation pattern, leading to the soundness of
   its guard insertion. -/

/-- Every prefix shorter than the takeWhile run satisfies the class. -/
theorem take_all_of_le_takeWhile {p : Char → Bool} :
    ∀ {s : List Char} {j : Nat}, j ≤ (s.takeWhile p).length → (s.take j).all p = true := by
  intro s
  induction s with
  | nil => intro j _; simp
  | cons c t ih =>
    intro j hj
    by_cases hp : p c
    · rw [List.takeWhile_cons_of_pos hp] at hj
      cases j with
      | zero => simp
      | succ m =>
        rw [List.take_succ_cons, List.all_cons, hp, Bool.true_and]
        exact ih (by simpa using hj)
    · rw [List.takeWhile_cons_of_neg hp] at hj
      simp at hj
      subst hj
      simp

/-- Shape of a literal match: the consumed text is the literal. -/
theorem runREc_lit_mem {l : List Char} {s : List Char} {cr : List Char × List Char}
    (h : cr ∈ runREc (RE.lit l) s) : cr.1 = l := by
  rw [runREc] at h
  by_cases hp : l.isPrefixOf s
  · rw [if_pos hp] at h; simp at h; rw [h]
  · rw [if_neg hp] at h; simp at h

/-- Shape of a greedy star match: every consumed character is in the class. -/
theorem runREc_star_mem {p : Char → Bool} {s : List Char} {cr : List Char × List Char}
    (h : cr ∈ runREc (RE.star p) s) : cr.1.all p = true := by
  simp only [runREc, List.mem_map, List.mem_range] at h
  rcases h with ⟨i, _, hi⟩
  have : cr.1 = s.take ((s.takeWhile p).length - i) := by rw [← hi]
  rw [this]
  exact take_all_of_le_takeWhile (Nat.sub_le _ _)

/-- Shape of a greedy plus match: a nonempty run of the class. -/
theorem runREc_plus_mem {p : Char → Bool} {s : List Char} {cr : List Char × List Char}
    (h : cr ∈ runREc (RE.plus p) s) : cr.1.all p = true ∧ cr.1 ≠ [] := by
  simp only [runREc, List.mem_map, List.mem_range] at h
  rcases h with ⟨i, hik, hi⟩
  have he : cr.1 = s.take ((s.takeWhile p).length - i) := by rw [← hi]
  constructor
  · rw [he]; exact take_all_of_le_takeWhile (Nat.sub_le _ _)
  · rw [he]
    have hk : (s.takeWhile p).length ≤ s.length := (List.takeWhile_sublist p).length_le
    intro hnil
    have : min ((s.takeWhile p).length - i) s.length = 0 := by
      have := congrArg List.length hnil
      simpa [List.length_take] using this
    omega

/-- Shape of a concatenation match: a split into the two parts. -/
theorem runREc_cat_mem {a b : RE} {s : List Char} {cr : List Char × List Char}
    (h : cr ∈ runREc (RE.cat a b) s) :
    ∃ c1 r1 c2, cr.1 = c1 ++ c2 ∧ (c1, r1) ∈ runREc a s ∧ (c2, cr.2) ∈ runREc b r1 := by
  rw [runREc] at h
  rcases List.mem_flatMap.mp h with ⟨c1r, hc1, hmem⟩
  rcases List.mem_map.mp hmem with ⟨dr, hdr, heq⟩
  refine ⟨c1r.1, c1r.2, dr.1, ?_, ?_, ?_⟩
  · rw [← heq]
  · exact hc1
  · have : cr.2 = dr.2 := by rw [← heq]
    rw [this]
    exact hdr

/-- Shape of an alternation match: one branch matched. -/
theorem runREc_alt_mem {a b : RE} {s : List Char} {cr : List Char × List Char}
    (h : cr ∈ runREc (RE.alt a b) s) : cr ∈ runREc a s ∨ cr ∈ runREc b s := by
  rw [runREc] at h
  exact List.mem_append.mp h

/-- Decomposition of a reconciliation header match into its syntactic parts. -/
theorem reconHdr_shape {s : List Char} {cr : List Char × List Char}
    (h : cr ∈ runREc reconHdrRE s) :
    ∃ w a b d, cr.1 = "async ".toList ++ w ++ "(".toList ++ a
        ++ "@CurrentUser() user: IUser".toList ++ b ++ ")".toList ++ d ++ "\x7b".toList
      ∧ w ≠ [] ∧ w.all isWordChar = true ∧ a.all notRPar = true
      ∧ b.all notRPar = true ∧ d.all notLBrace = true := by
  rw [reconHdrRE] at h
  obtain ⟨cA, rA, cB, hAB, hA, hB⟩ := runREc_cat_mem h
  have hAlit := runREc_lit_mem hA
  obtain ⟨cW, rW, cC, hWC, hW, hC⟩ := runREc_cat_mem hB
  obtain ⟨hWall, hWne⟩ := runREc_plus_mem hW
  obtain ⟨cP, rP, cD, hPD, hP, hD⟩ := runREc_cat_mem hC
  have hPlit := runREc_lit_mem hP
  obtain ⟨cS1, rS1, cE, hSE, hS1, hE⟩ := runREc_cat_mem hD
  have hS1all := runREc_star_mem hS1
  obtain ⟨cU, rU, cF, hUF, hU, hF⟩ := runREc_cat_mem hE
  have hUlit := runREc_lit_mem hU
  obtain ⟨cS2, rS2, cG, hSG, hS2, hG⟩ := runREc_cat_mem hF
  have hS2all := runREc_star_mem hS2
  obtain ⟨cR, rR, cH, hRH, hR, hH⟩ := runREc_cat_mem hG
  have hRlit := runREc_lit_mem hR
  obtain ⟨cS3, rS3, cI, hSI, hS3, hI⟩ := runREc_cat_mem hH
  have hS3all := runREc_star_mem hS3
  have hIlit := runREc_lit_mem hI
  dsimp only at hAlit hPlit hUlit hRlit hIlit hWall hWne hS1all hS2all hS3all
  dsimp only at hAB hWC hPD hSE hUF hSG hRH hSI
  refine ⟨cW, cS1, cS2, cS3, ?_, hWne, hWall, hS1all, hS2all, hS3all⟩
  rw [hAB, hAlit, hWC, hPD, hPlit, hSE, hUF, hUlit, hSG, hRH, hRlit, hSI, hIlit]
  simp [List.append_assoc]

/-- Decomposition of a logger-call match: this.logger. then a keyword then (. -/
theorem reconCall_shape {s : List Char} {cr : List Char × List Char}
    (h : cr ∈ runREc reconCallRE s) :
    ∃ kw, (kw = "log".toList ∨ kw = "debug".toList ∨ kw = "warn".toList)
      ∧ cr.1 = "this.logger.".toList ++ kw ++ "(".toList := by
  rw [reconCallRE] at h
  obtain ⟨cA, rA, cB, hAB, hA, hB⟩ := runREc_cat_mem h
  have hAlit := runREc_lit_mem hA
  obtain ⟨cK, rK, cP, hKP, hK, hP⟩ := runREc_cat_mem hB
  have hPlit := runREc_lit_mem hP
  dsimp only at hAlit hPlit hAB hKP
  rcases runREc_alt_mem hK with hk | hk2
  · have := runREc_lit_mem hk
    dsimp only at this
    exact ⟨cK, Or.inl this, by rw [hAB, hAlit, hKP, hPlit, List.append_assoc]⟩
  · rcases runREc_alt_mem hk2 with hk | hk
    · have := runREc_lit_mem hk
      dsimp only at this
      exact ⟨cK, Or.inr (Or.inl this), by rw [hAB, hAlit, hKP, hPlit, List.append_assoc]⟩
    · have := runREc_lit_mem hk
      dsimp only at this
      exact ⟨cK, Or.inr (Or.inr this), by rw [hAB, hAlit, hKP, hPlit, List.append_assoc]⟩

/-- Full decomposition of a successful reconciliation match. -/
theorem matchReconAt_sound {s g1 gap g2 rest : List Char}
    (h : matchReconAt s = some (g1, gap, g2, rest)) :
    s = g1 ++ gap ++ g2 ++ rest
    ∧ (∃ w a b d, g1 = "async ".toList ++ w ++ "(".toList ++ a
        ++ "@CurrentUser() user: IUser".toList ++ b ++ ")".toList ++ d ++ "\x7b".toList
        ∧ w ≠ [] ∧ w.all isWordChar = true ∧ a.all notRPar = true
        ∧ b.all notRPar = true ∧ d.all notLBrace = true)
    ∧ gap.all isPySpace = true
    ∧ (∃ kw, (kw = "log".toList ∨ kw = "debug".toList ∨ kw = "warn".toList)
        ∧ g2 = "this.logger.".toList ++ kw ++ "(".toList) := by
  rw [matchReconAt] at h
  obtain ⟨c1, hc1mem, h1⟩ := List.exists_of_findSome?_eq_some h
  obtain ⟨cg, hcgmem, h2⟩ := List.exists_of_findSome?_eq_some h1
  obtain ⟨c2, hc2mem, h3⟩ := List.exists_of_findSome?_eq_some h2
  have hinj := Option.some.inj h3
  have hg1 : c1.1 = g1 := congrArg (fun x => x.1) hinj
  have hgap : cg.1 = gap := congrArg (fun x => x.2.1) hinj
  have hg2 : c2.1 = g2 := congrArg (fun x => x.2.2.1) hinj
  have hrest : c2.2 = rest := congrArg (fun x => x.2.2.2) hinj
  have hs1 := runREc_sound _ _ _ hc1mem
  have hs2 := runREc_sound _ _ _ hcgmem
  have hs3 := runREc_sound _ _ _ hc2mem
  refine ⟨?_, ?_, ?_, ?_⟩
  · rw [← hg1, ← hgap, ← hg2, ← hrest]
    rw [List.append_assoc, List.append_assoc]
    rw [← hs1]
    congr 1
    rw [← hs2]
    congr 1
    exact hs3.symm
  · have := reconHdr_shape hc1mem
    rw [hg1] at this
    exact this
  · have hmem2 : cg ∈ runREc (RE.star isPySpace) c1.2 := by
      rw [reconGapRE] at hcgmem
      exact hcgmem
    have := runREc_star_mem hmem2
    rw [hgap] at this
    exact this
  · have := reconCall_shape hc2mem
    rw [hg2] at this
    exact this

/-- When the reconciliation substitution changes the text, the input splits
    around a successful match of the full pattern. -/
theorem reconSubF_changed :
    ∀ (fuel : Nat) (s : List Char), reconSubF fuel s ≠ s →
    ∃ pre g1 gap g2 rest, s = pre ++ (g1 ++ gap ++ g2 ++ rest)
      ∧ matchReconAt (g1 ++ gap ++ g2 ++ rest) = some (g1, gap, g2, rest) := by
  intro fuel
  induction fuel with
  | zero => intro s h; exact absurd rfl h
  | succ n ih =>
    intro s h
    cases s with
    | nil => exact absurd rfl h
    | cons c t =>
      rw [reconSubF] at h
      cases hm : matchReconAt (c :: t) with
      | some r =>
        obtain ⟨g1, gap, g2, rest⟩ := r
        have hsnd := matchReconAt_sound hm
        refine ⟨[], g1, gap, g2, rest, by simpa using hsnd.1, ?_⟩
        rw [← hsnd.1]
        exact hm
      | none =>
        rw [hm] at h
        have ht : reconSubF n t ≠ t := by
          intro he
          rw [he] at h
          exact h rfl
        obtain ⟨pre, g1, gap, g2, rest, hdec, hmt⟩ := ih t ht
        exact ⟨c :: pre, g1, gap, g2, rest, by rw [List.cons_append, ← hdec], hmt⟩

/- Claim theorems. -/

set_option maxRecDepth 2000000

/-- C1: the patch engine is claimed idempotent, and the guard-presence
    window check is meant to suppress a second insertion; evaluating
    fix_controller_file at a method whose body already starts with an
    unguarded binding declaration shows the first run rewrites that
    declaration to a self-referential one (destroying the marker the window
    check relies on), so the second run inserts a fresh guard: the second
    run is not a no-op on the output of the first. -/
theorem controller_fix_second_run_changes :
    (fixControllerFile (fixControllerFile c1Input).1).1 ≠ (fixControllerFile c1Input).1 := by
  decide

/-- C2 counterexample: in the nested fixture the diagnostic on 1-based line
    4 lies inside the arrow closure declared on line index 2, whose body
    starts at line index 3; the Boundary Locator returns 2, the offset right
    after the outer method header, not 3, so the guard is not placed after
    the innermost callable's opening brace. -/
theorem locator_nested_closure_cex :
    findMethodStart c2Fix 4 = some 2 ∧ findMethodStart c2Fix 4 ≠ some 3 := by decide

/-- C2 amended: the locator returns the body start belonging to the nearest
    preceding line that matches the generic header pattern; the arrow
    closure header does not match that pattern, so on the nested fixture the
    declaration is inserted right after the outer method's opening brace,
    before the closure line. -/
theorem locator_nearest_header_fixture :
    addDecl c2Fix [] 4 = (c2Expected, [2]) ∧ declLineMatch (c2Fix.getD 2 []) = false := by
  decide

/-- C3 counterexample: on an already fully guarded controller method the fix
    leaves the text unchanged and still reports a write; fix_controller_file
    writes whenever any method matched. -/
theorem controller_write_unchanged_cex :
    fixControllerFile ctr3Input = (ctr3Input, true) := by decide

/-- C3 amended: the conditional-write fixers, fix_dto_file and the fix_file
    of add-missing-tenant-id.py (fix_any_file follows the same shape), write
    back exactly when the content changed; fix_controller_file does not obey
    the invariant, as the counterexample shows. -/
theorem write_iff_changed_conditional_fixers :
    ∀ (c : List Char) (lines : List (List Char)) (errs : List Nat),
      ((fixDtoFile c).2 = true ↔ (fixDtoFile c).1 ≠ c)
      ∧ ((amFixFile lines errs).2 = true ↔ (amFixFile lines errs).1 ≠ lines) := by
  intro c lines errs
  constructor
  · by_cases h : reSubAll dtoPlainRE dtoRep (reSubAll dtoBangRE dtoRep c) ≠ c
    · simp [fixDtoFile, if_pos h, h]
    · simp [fixDtoFile, if_neg h, h]
  · by_cases h : (addDeclLoop (lines, []) (sortNat errs)).1 ≠ lines
    · simp [amFixFile, if_pos h, h]
    · simp [amFixFile, if_neg h, h]

/-- C4 counterexample: fix_file of add-missing-tenant-id.py applies its
    insertions head-to-tail, not tail-to-head: the diagnostics are processed
    in ascending sorted order, so on the two-method fixture the insertions
    are applied at 2 and then at 6 — an application-order list that is not
    descending — and the first insertion shifts the pending one: the second
    method's body start is index 5 on the original snapshot, but after the
    first insertion the locator recomputes index 6 from the mutated line
    list, so the second declaration does not land at the offset computed
    from the original snapshot. -/
theorem addmissing_ascending_shift_cex :
    findMethodStart c4Fix 6 = some 5
    ∧ (addDecl c4Fix [] 3).2 = [2]
    ∧ findMethodStart (addDecl c4Fix [] 3).1 6 = some 6
    ∧ ((addDeclLoop (c4Fix, []) (sortNat [3, 6])).2).reverse = [2, 6]
    ∧ descListB (((addDeclLoop (c4Fix, []) (sortNat [3, 6])).2).reverse) = false := by
  decide

/-- C4 amended: in the reversed-finditer insertion loops (fix_controller_file
    and Strategies 1 and 5 of fix_any_file) the worklists are descending and
    in bounds; an offset at or below every pending insertion is never
    shifted by the insertions already applied; and on a descending worklist
    the loop result equals the spec-side simultaneous application at the
    offsets actually inserted, each computed against the original snapshot.
    The fix_file of add-missing-tenant-id.py is excluded: it processes
    diagnostics ascending and recomputes each insertion line from the
    mutated line list, as the counterexample shows. -/
theorem patches_descending_snapshot :
    (∀ (r : RE) (s : List Char),
        descListB ((scanMatchEnds r s.length 0 s).reverse) = true
        ∧ ∀ x ∈ scanMatchEnds r s.length 0 s, x ≤ s.length)
    ∧ (∀ (g : List Char) (w : Nat) (m : List (List Char)) (ps : List Nat)
         (s : List Char) (q : Nat),
        (∀ x ∈ ps, x ≤ s.length) → (∀ x ∈ ps, q ≤ x) →
        (guardLoop g w m ps s).take q = s.take q)
    ∧ (∀ (g : List Char) (w : Nat) (m : List (List Char)) (ps : List Nat) (s : List Char),
        descListB ps = true → (∀ x ∈ ps, x ≤ s.length) →
        guardLoop g w m ps s =
          specApplyPatches g ((guardLoopAux g w m ps s).2).reverse s) := by
  refine ⟨?_, ?_, ?_⟩
  · intro r s
    refine ⟨scanEnds_rev_desc s.length 0 s, ?_⟩
    intro x hx
    have := scanEnds_ub s.length 0 s x hx
    omega
  · intro g w m ps s q hb hq
    exact guardLoop_take_stable ps s q hb hq
  · intro g w m ps s hd hb
    exact (guardLoopAux_snapshot ps s hd hb).1

/-- C4 witness: a concrete tail-to-head run over offsets 5 and 2. -/
theorem patches_descending_snapshot_witness :
    (guardLoop "GG".toList 1 ["zz".toList] [5, 2] "abcdef".toList).take 2
        = ("abcdef".toList).take 2
    ∧ guardLoop "GG".toList 1 ["zz".toList] [5, 2] "abcdef".toList
        = specApplyPatches "GG".toList
            ((guardLoopAux "GG".toList 1 ["zz".toList] [5, 2] "abcdef".toList).2).reverse
            "abcdef".toList :=
  ⟨patches_descending_snapshot.2.1 "GG".toList 1 ["zz".toList] [5, 2] "abcdef".toList 2
      (by decide) (by decide),
   patches_descending_snapshot.2.2 "GG".toList 1 ["zz".toList] [5, 2] "abcdef".toList
      (by decide) (by decide)⟩

/-- C5 counterexample: the Reference Rewriter of
    fix_reconciliation_controller rewrites a logging line holding the unsafe
    expression when the line sits outside a guard block; that script has no
    logging exemption. -/
theorem recon_rewrites_logging_line_cex :
    reconRewriteGo false [c5LogLine] ≠ [c5LogLine]
    ∧ containsSub (lowerL c5LogLine) loggerLit = true
    ∧ containsSub c5LogLine userTenantLit = true := by decide

/-- C5 amended: in fix_controller_file the log exemption holds: any line the
    engine recognizes as a logging line (the token logger, case folded) is
    emitted unchanged in every state, and a non-log line outside the guard
    block that holds the unsafe expression and is not a conditional-failure
    line has every occurrence replaced and is really changed. -/
theorem log_exemption_controller_rewriter :
    ∀ (st : Bool) (line : List Char),
      (containsSub (lowerL line) loggerLit = true → (ctrLineStep st line).1 = line)
      ∧ (st = false → containsSub line bangUserLit = false →
          containsSub (lowerL line) loggerLit = false →
          containsSub line userTenantLit = true →
          (ctrLineStep st line).1 = replaceAll line userTenantLit tenantIdLit
            ∧ (ctrLineStep st line).1 ≠ line) := by
  intro st line
  constructor
  · intro hlog
    by_cases hb : containsSub line bangUserLit
    · simp [ctrLineStep, hb]
    · cases st <;> simp [ctrLineStep, hb, hlog]
  · intro hst hb hlog hpat
    subst hst
    rw [ctrLineStep, if_neg (by simp [hb]), if_neg (by simp)]
    rw [if_pos (by simp [hpat, hlog])]
    exact ⟨rfl, replaceAll_ne_of_contains hpat (by decide)⟩

/-- C5 witness: a concrete logging line is kept, a concrete non-log line is
    rewritten. -/
theorem log_exemption_controller_rewriter_witness :
    (ctrLineStep false c5LogLine).1 = c5LogLine
    ∧ (ctrLineStep false "    return a.find(user.tenantId);".toList).1
        = replaceAll "    return a.find(user.tenantId);".toList userTenantLit tenantIdLit
    ∧ (ctrLineStep false "    return a.find(user.tenantId);".toList).1
        ≠ "    return a.find(user.tenantId);".toList :=
  ⟨(log_exemption_controller_rewriter false c5LogLine).1 (by decide),
   ((log_exemption_controller_rewriter false _).2 rfl (by decide) (by decide) (by decide)).1,
   ((log_exemption_controller_rewriter false _).2 rfl (by decide) (by decide) (by decide)).2⟩

/-- C6 counterexample: the reconciliation rewrite machine does not exit on
    the binding-declaration line: it enters on it, and a following ordinary
    line holding the unsafe expression is emitted unchanged instead of being
    rewritten. -/
theorem recon_state_after_binding_cex :
    (reconLineStep false c6BindLine).2 = true
    ∧ reconRewriteGo false [c6BindLine, c6UseLine] = [c6BindLine, c6UseLine]
    ∧ containsSub c6UseLine userTenantLit = true
    ∧ containsSub c6UseLine bangUserLit = false
    ∧ stripL c6UseLine ≠ rbraceL := by decide

/-- C6 amended: guard-block lines are emitted unchanged by both rewriters;
    the fix_controller_file machine enters on the conditional-failure line
    and exits exactly on the binding-declaration line, while the
    fix_reconciliation_controller machine enters on either marker line and
    exits exactly on a line whose strip is a lone closing brace. -/
theorem guard_block_state_machines :
    ∀ (st : Bool) (line : List Char),
      (containsSub line bangUserLit = true → ctrLineStep st line = (line, true))
      ∧ (st = true → (ctrLineStep st line).1 = line)
      ∧ (st = true → containsSub line bangUserLit = false →
          ((ctrLineStep st line).2 = false ↔ containsSub line bindDeclLit = true))
      ∧ ((containsSub line bangUserLit || containsSub line bindDeclLit) = true →
          reconLineStep st line = (line, true))
      ∧ (st = true → (reconLineStep st line).1 = line)
      ∧ (st = true → (containsSub line bangUserLit || containsSub line bindDeclLit) = false →
          ((reconLineStep st line).2 = false ↔ stripL line = rbraceL)) := by
  intro st line
  refine ⟨?_, ?_, ?_, ?_, ?_, ?_⟩
  · intro hb; simp [ctrLineStep, hb]
  · intro hst; subst hst
    by_cases hb : containsSub line bangUserLit <;> simp [ctrLineStep, hb]
  · intro hst hb; subst hst
    by_cases hbd : containsSub line bindDeclLit <;> simp [ctrLineStep, hb, hbd]
  · intro hor; simp [reconLineStep, hor]
  · intro hst; subst hst
    by_cases hor : (containsSub line bangUserLit || containsSub line bindDeclLit)
    · simp [reconLineStep, hor]
    · by_cases hstrip : stripL line = rbraceL <;> simp [reconLineStep, hor, hstrip]
  · intro hst hor; subst hst
    by_cases hstrip : stripL line = rbraceL <;> simp [reconLineStep, hor, hstrip]

/-- C6 witness: the transitions at concrete guard-block lines. -/
theorem guard_block_state_machines_witness :
    ctrLineStep false "    if (!user.tenantId) \x7b".toList
        = ("    if (!user.tenantId) \x7b".toList, true)
    ∧ (ctrLineStep true c6BindLine).1 = c6BindLine
    ∧ ((ctrLineStep true c6BindLine).2 = false ↔ containsSub c6BindLine bindDeclLit = true)
    ∧ reconLineStep false c6BindLine = (c6BindLine, true)
    ∧ ((reconLineStep true "    \x7d".toList).2 = false ↔
        stripL "    \x7d".toList = rbraceL) :=
  ⟨(guard_block_state_machines false _).1 (by decide),
   (guard_block_state_machines true c6BindLine).2.1 rfl,
   (guard_block_state_machines true c6BindLine).2.2.1 rfl (by decide),
   (guard_block_state_machines false c6BindLine).2.2.2.1 (by decide),
   (guard_block_state_machines true _).2.2.2.2.2 rfl (by decide)⟩

/-- C7 counterexample: two paths of equal directory depth receive different
    specifiers, because the resolver special-cases the directory names
    /api/admin/ and /websocket/ by substring tests. -/
theorem import_resolver_depth_cex :
    specDirDepth c7PathA = specDirDepth c7PathB
    ∧ resolveImportPath c7PathA ≠ resolveImportPath c7PathB := by decide

/-- C7 amended: the resolver is a pure function of the two directory-name
    substring flags, not of the directory depth: two paths that agree on
    holding /api/admin/ and on holding /websocket/ receive the same
    specifier. -/
theorem import_resolver_flag_purity :
    ∀ p q : List Char,
      containsSub p apiAdminDirLit = containsSub q apiAdminDirLit →
      containsSub p websocketDirLit = containsSub q websocketDirLit →
      resolveImportPath p = resolveImportPath q := by
  intro p q h1 h2
  rw [resolveImportPath, resolveImportPath, h1, h2]

/-- C7 witness: two concrete admin paths resolve identically. -/
theorem import_resolver_flag_purity_witness :
    resolveImportPath "a/api/admin/x.ts".toList
      = resolveImportPath "b/api/admin/y.service.ts".toList :=
  import_resolver_flag_purity _ _ (by decide) (by decide)

/-- C8 counterexample: in the bounded-search fixture the found declaration
    (index 4, the nearest match scanning backward from the diagnostic on
    line 27) has no opening brace within its 20-line window, yet the locator
    does not report not-found: it continues to the earlier helper
    declaration, returns its body start, and the fix inserts a declaration,
    so the diagnostic is not ignored. -/
theorem boundary_decl_without_brace_cex :
    declLineMatch (c8Fix.getD 4 []) = true
    ∧ braceSearch c8Fix 4 = none
    ∧ findMethodStart c8Fix 27 = some 2
    ∧ addDecl c8Fix [] 27 ≠ (c8Fix, []) := by decide

/-- C8 amended: when no scanned line (the backward window runs from index
    e-1 down to index max(0, e-100)+1) both matches the declaration pattern
    and has an opening brace within its 20-line forward window, the locator
    reports not-found and the fix step leaves the line list and the fixed
    set unchanged for that diagnostic. -/
theorem boundary_not_found_no_insertion :
    ∀ (lines : List (List Char)) (fixedSet : List Nat) (e : Nat),
      (∀ i ∈ scanIndices e,
        declLineMatch (lines.getD i []) = false ∨ braceSearch lines i = none) →
      findMethodStart lines e = none ∧ addDecl lines fixedSet e = (lines, fixedSet) := by
  intro lines fixedSet e h
  have hfind : findMethodStart lines e = none := by
    rw [findMethodStart, List.findSome?_eq_none_iff]
    intro i hi
    by_cases hd : declLineMatch (lines.getD i [])
    · rw [if_pos hd]
      rcases h i hi with hd2 | hb
      · rw [hd] at hd2; cases hd2
      · exact hb
    · rw [if_neg hd]
  refine ⟨hfind, ?_⟩
  unfold addDecl
  rw [hfind]

/-- C8 witness: a two-line file whose scanned line is no declaration. -/
theorem boundary_not_found_no_insertion_witness :
    findMethodStart ["a;\n".toList, "b;\n".toList] 2 = none
    ∧ addDecl ["a;\n".toList, "b;\n".toList] [] 2 = (["a;\n".toList, "b;\n".toList], []) :=
  boundary_not_found_no_insertion ["a;\n".toList, "b;\n".toList] [] 2 (by decide)

/-- C9: whenever the reconciliation guard insertion changes a text, the text
    splits around a method header that begins with async, carries the
    at-CurrentUser() user: IUser parameter and ends at its opening brace,
    followed by whitespace only and then immediately a this.logger.log,
    this.logger.debug or this.logger.warn call: the insertion applies only
    to methods whose body starts with such a call, and any method whose body
    starts with anything else is left unchanged by it. -/
theorem recon_guard_requires_logger_start :
    ∀ s : List Char, reconInsertGuards s ≠ s →
      ∃ pre w a b d gap kw rest,
        s = pre ++ ("async ".toList ++ w ++ "(".toList ++ a
            ++ "@CurrentUser() user: IUser".toList ++ b ++ ")".toList ++ d ++ "\x7b".toList)
          ++ gap ++ ("this.logger.".toList ++ kw ++ "(".toList) ++ rest
        ∧ w ≠ [] ∧ w.all isWordChar = true ∧ a.all notRPar = true ∧ b.all notRPar = true
        ∧ d.all notLBrace = true ∧ gap.all isPySpace = true
        ∧ (kw = "log".toList ∨ kw = "debug".toList ∨ kw = "warn".toList) := by
  intro s h
  obtain ⟨pre, g1, gap, g2, rest, hdec, hm⟩ := reconSubF_changed s.length s h
  obtain ⟨_, ⟨w, a, b, d, hg1, hwne, hwall, ha, hb2, hd2⟩, hgap, ⟨kw, hkw, hg2⟩⟩ :=
    matchReconAt_sound hm
  refine ⟨pre, w, a, b, d, gap, kw, rest, ?_, hwne, hwall, ha, hb2, hd2, hgap, hkw⟩
  rw [hdec, hg1, hg2]
  simp [List.append_assoc]

/-- C9 witness: a concrete method whose body starts with a logger call is
    changed, and the decomposition exists. -/
theorem recon_guard_requires_logger_start_witness :
    ∃ pre w a b d gap kw rest,
      c9WitnessIn = pre ++ ("async ".toList ++ w ++ "(".toList ++ a
          ++ "@CurrentUser() user: IUser".toList ++ b ++ ")".toList ++ d ++ "\x7b".toList)
        ++ gap ++ ("this.logger.".toList ++ kw ++ "(".toList) ++ rest
      ∧ w ≠ [] ∧ w.all isWordChar = true ∧ a.all notRPar = true ∧ b.all notRPar = true
      ∧ d.all notLBrace = true ∧ gap.all isPySpace = true
      ∧ (kw = "log".toList ∨ kw = "debug".toList ∨ kw = "warn".toList) :=
  recon_guard_requires_logger_start c9WitnessIn (by decide)

/-- C10 counterexample: two matched service functions 33 characters apart;
    the first function's original 200-character window is free of !tenantId,
    yet no check lands right after its opening brace, because the window is
    evaluated on the partially patched text and sees the check inserted into
    the second function. -/
theorem service_param_guard_window_cex :
    30 ∈ funcMatchEnds svcTwoFns
    ∧ containsSub ((svcTwoFns.drop 30).take 200) bangTenantLit = false
    ∧ ¬ ((fixServiceStage svcPath svcTwoFns).take (30 + paramCheckText.length)
          = svcTwoFns.take 30 ++ paramCheckText) := by decide

/-- C10 amended: on service, repository and handler paths, when consecutive
    matched body-start offsets are at least 200 characters apart, Strategy 5
    equals the snapshot application of the parameter check at exactly the
    offsets whose original 200-character window lacks !tenantId; functions
    whose window already holds it receive nothing. -/
theorem service_param_guard_separated :
    ∀ (path content : List Char),
      pathIsService path = true →
      descSepB 200 ((funcMatchEnds content).reverse) = true →
      fixServiceStage path content =
        specApplyPatches paramCheckText
          ((funcMatchEnds content).filter
            (fun p => !windowHasB content 200 [bangTenantLit] p))
          content := by
  intro path content hpath hsep
  rw [fixServiceStage, if_pos hpath, fixServicePass, guardLoop]
  have hb : ∀ x ∈ (funcMatchEnds content).reverse, x ≤ content.length := by
    intro x hx
    have := scanEnds_ub content.length 0 content x (List.mem_reverse.mp hx)
    omega
  rw [guardLoopAux_sep ((funcMatchEnds content).reverse) content hsep hb]
  rw [List.filter_reverse, List.reverse_reverse]

/-- C10 witness: a single service function receives the check at its
    snapshot offset. -/
theorem service_param_guard_separated_witness :
    fixServiceStage svcPath "function a(tenantId: string) \x7b\n\x7d\n".toList
      = specApplyPatches paramCheckText
          ((funcMatchEnds "function a(tenantId: string) \x7b\n\x7d\n".toList).filter
            (fun p => !windowHasB "function a(tenantId: string) \x7b\n\x7d\n".toList 200
              [bangTenantLit] p))
          "function a(tenantId: string) \x7b\n\x7d\n".toList :=
  service_param_guard_separated svcPath _ (by decide) (by decide)
